import Mathlib

/-!
Shallow embedding of the proglog commit-log HTTP server
(`src/proglog/internal/server/http.go`) together with the in-memory Log
component it serves.  The Log's own Go source file is not part of the
source tree (only its caller `http.go` is), so the Log is modelled from
the specification's description of it; the HTTP handlers are translated
from `http.go` directly.
-/

/-- A stored record: an opaque byte payload and its assigned offset.
Go: `type Record struct { Value []byte; Offset uint64 }` (used by
`http.go`; declared in the log component).  Bytes are modelled as
naturals; offsets as `Nat` (no reachable state overflows 64 bits). -/
structure Record where
  value : List Nat
  offset : Nat
deriving DecidableEq, Repr

/-- The Go zero value `Record{}`. -/
def Record.zero : Record := ⟨[], 0⟩

/-- A Go error value as the transport layer sees it: either the shared
sentinel for offset-not-found, or some other opaque error. -/
inductive GoError where
  | offsetNotFound
  | other (msg : String)
deriving DecidableEq, Repr

/-- Modelled from the spec: the single shared sentinel error value
("the source distinguishes the not-found condition by identity
comparison against a single shared error value"). -/
def ErrOffsetNotFound : GoError := GoError.offsetNotFound

/-- Modelled from the spec: the Log component, whose Go file is absent
from the source tree.  "Backing storage: an ordered sequence of Records
indexed by position." -/
structure Log where
  records : List Record
deriving DecidableEq, Repr

/-- Modelled from the spec: "the Log is created empty". -/
def NewLog : Log := ⟨[]⟩

/-- Modelled from the spec: `Append(record) → offset`.  "The record is
stored at position `len(current sequence)`; that position becomes its
offset; the record (with offset now set) is appended to the sequence",
and the new offset is "returned to the caller with no error".  The Go
signature is `(uint64, error)`; the result here is
(offset, error, updated log). -/
def Log.Append (c : Log) (record : Record) : Nat × Option GoError × Log :=
  let r : Record := { record with offset := c.records.length }
  (c.records.length, none, ⟨c.records ++ [r]⟩)

/-- Modelled from the spec: `Read(offset) → record`.  "If
`offset >= len(current sequence)`, the operation fails with an
offset-not-found condition", otherwise the record stored at that
position is returned by value, with no error.  Go returns the pair
`(Record{}, ErrOffsetNotFound)` on failure. -/
def Log.Read (c : Log) (offset : Nat) : Record × Option GoError :=
  if offset ≥ c.records.length then (Record.zero, some ErrOffsetNotFound)
  else (c.records.getD offset Record.zero, none)

/-- `type ProduceRequest struct { Record Record }` from http.go. -/
structure ProduceRequest where
  record : Record
deriving DecidableEq, Repr

/-- `type ProduceResponse struct { Offset uint64 }` from http.go. -/
structure ProduceResponse where
  offset : Nat
deriving DecidableEq, Repr

/-- `type ConsumeRequest struct { Offset uint64 }` from http.go. -/
structure ConsumeRequest where
  offset : Nat
deriving DecidableEq, Repr

/-- `type ConsumeResponse struct { Record Record }` from http.go. -/
structure ConsumeResponse where
  record : Record
deriving DecidableEq, Repr

/-- A JSON value (as much of JSON as request decoding needs). -/
inductive Json where
  | null
  | bool (b : Bool)
  | num (n : Nat)
  | str (s : String)
  | arr (elems : List Json)
  | obj (fields : List (String × Json))

/-- The last binding of a key in a JSON object (Go's decoder lets a
later duplicate key overwrite an earlier one). -/
def lookupField (key : String) (fields : List (String × Json)) : Option Json :=
  ((fields.filter fun p => p.1 == key).map Prod.snd).getLast?

/-- Modelled from Go's `encoding/json` semantics for decoding a request
body into `ConsumeRequest` (a struct with one uint64 field tagged
"offset"): an object may omit the field, keeping the zero value 0; an
explicit JSON null also leaves the zero value; a non-negative integer
below 2^64 is accepted; any other body is a decode error. -/
def decodeConsumeRequest (j : Json) : Option ConsumeRequest :=
  match j with
  | Json.null => some ⟨0⟩
  | Json.obj fields =>
    match lookupField "offset" fields with
    | none => some ⟨0⟩
    | some Json.null => some ⟨0⟩
    | some (Json.num n) => if n < 2 ^ 64 then some ⟨n⟩ else none
    | some _ => none
  | _ => none

/-- The tail of `handleConsume` after the log read (http.go): identity
comparison with the sentinel gives 404, any other non-nil error gives
500, otherwise the response is encoded (an encode failure gives 500).
Result: (status code, response body, log state). -/
def consumeAfterRead (log : Log) (record : Record) (err : Option GoError)
    (encodeOk : Bool) : Nat × Option ConsumeResponse × Log :=
  if err = some ErrOffsetNotFound then (404, none, log)
  else if err ≠ none then (500, none, log)
  else if encodeOk then (200, some ⟨record⟩, log) else (500, none, log)

/-- `handleConsume` from http.go: decode the GET body into a
`ConsumeRequest` (400 on decode failure, log untouched), call
`Log.Read`, and map the outcome to a status.  `encodeOk` models the
external success of JSON-encoding the response. -/
def handleConsume (log : Log) (body : Json) (encodeOk : Bool) :
    Nat × Option ConsumeResponse × Log :=
  match decodeConsumeRequest body with
  | none => (400, none, log)
  | some req =>
    let res := log.Read req.offset
    consumeAfterRead log res.1 res.2 encodeOk

/-- The tail of `handleProduce` after the append (http.go): a non-nil
append error gives 500, otherwise the assigned offset is encoded (an
encode failure gives 500). -/
def produceAfterAppend (log : Log) (off : Nat) (err : Option GoError)
    (encodeOk : Bool) : Nat × Option ProduceResponse × Log :=
  match err with
  | some _ => (500, none, log)
  | none => if encodeOk then (200, some ⟨off⟩, log) else (500, none, log)

/-- `handleProduce` from http.go: decode the POST body into a
`ProduceRequest` (400 on decode failure, log untouched), call
`Log.Append`, and respond with the assigned offset.  `body` is the
result of decoding the POST body; `encodeOk` models response
encoding. -/
def handleProduce (log : Log) (body : Option ProduceRequest) (encodeOk : Bool) :
    Nat × Option ProduceResponse × Log :=
  match body with
  | none => (400, none, log)
  | some req =>
    let res := log.Append req.record
    produceAfterAppend res.2.2 res.1 res.2.1 encodeOk

/-- A client-visible log operation. -/
inductive Op where
  | append (r : Record)
  | read (o : Nat)

/-- State transition of one operation: `Append` replaces the log with
the appended one; `Read` performs no mutation (it only validates the
offset and indexes the sequence). -/
def step (l : Log) : Op → Log
  | Op.append r => (l.Append r).2.2
  | Op.read _ => l

/-- Run a sequence of operations from a starting log state. -/
def run (l : Log) (ops : List Op) : Log := ops.foldl step l

/-- The number of append operations in a sequence. -/
def countAppends (ops : List Op) : Nat :=
  (ops.filter fun op => match op with | Op.append _ => true | Op.read _ => false).length

/-- Sequentially append a list of records, collecting the offsets the
calls return. -/
def appendAllOffsets (l : Log) (rs : List Record) : List Nat × Log :=
  match rs with
  | [] => ([], l)
  | r :: rest =>
    let res := l.Append r
    let tail := appendAllOffsets res.2.2 rest
    (res.1 :: tail.1, tail.2)

/-- Sequentially append a list of records. -/
def appendAll (l : Log) (rs : List Record) : Log :=
  match rs with
  | [] => l
  | r :: rest => appendAll (l.Append r).2.2 rest

/-! ### Basic lemmas about the Log operations -/

theorem Log.append_fst (l : Log) (r : Record) : (l.Append r).1 = l.records.length := rfl

theorem Log.append_err (l : Log) (r : Record) : (l.Append r).2.1 = none := rfl

theorem Log.append_records (l : Log) (r : Record) :
    ((l.Append r).2.2).records = l.records ++ [{ r with offset := l.records.length }] := rfl

theorem Log.append_length (l : Log) (r : Record) :
    ((l.Append r).2.2).records.length = l.records.length + 1 := by
  simp [Log.append_records]

theorem Log.read_of_lt (l : Log) (o : Nat) (h : o < l.records.length) :
    l.Read o = (l.records.getD o Record.zero, none) := by
  simp [Log.Read, Nat.not_le.mpr h]

theorem Log.read_of_ge (l : Log) (o : Nat) (h : l.records.length ≤ o) :
    l.Read o = (Record.zero, some ErrOffsetNotFound) := by
  simp [Log.Read, h]

/-! ### Lemmas about sequences of appends -/

theorem appendAll_cons (l : Log) (r : Record) (rs : List Record) :
    appendAll l (r :: rs) = appendAll (l.Append r).2.2 rs := rfl

theorem appendAll_length (rs : List Record) : ∀ l : Log,
    (appendAll l rs).records.length = l.records.length + rs.length := by
  induction rs with
  | nil => intro l; simp [appendAll]
  | cons r rest ih =>
    intro l
    rw [appendAll_cons, ih]
    rw [Log.append_length]
    simp
    omega

theorem appendAll_getD_early (rs : List Record) : ∀ (l : Log) (i : Nat),
    i < l.records.length →
    (appendAll l rs).records.getD i Record.zero = l.records.getD i Record.zero := by
  induction rs with
  | nil => intro l i _; rfl
  | cons r rest ih =>
    intro l i hi
    rw [appendAll_cons, ih _ i (by rw [Log.append_length]; omega)]
    rw [Log.append_records, List.getD_append _ _ _ _ hi]

theorem appendAll_getD (rs : List Record) : ∀ (l : Log) (i : Nat) (h : i < rs.length),
    (appendAll l rs).records.getD (l.records.length + i) Record.zero
      = { rs.get ⟨i, h⟩ with offset := l.records.length + i } := by
  induction rs with
  | nil => intro l i h; exact absurd h (by simp)
  | cons r rest ih =>
    intro l i h
    match i with
    | 0 =>
      rw [appendAll_cons]
      rw [appendAll_getD_early rest _ _ (by rw [Log.append_length]; omega)]
      rw [Log.append_records]
      rw [List.getD_append_right _ _ _ _ (by omega)]
      simp
    | Nat.succ j =>
      rw [appendAll_cons]
      have hj : j < rest.length := by simpa using h
      have := ih (l.Append r).2.2 j hj
      rw [Log.append_length] at this
      have harith : l.records.length + 1 + j = l.records.length + (j + 1) := by omega
      rw [harith] at this
      rw [this]
      simp

theorem appendAllOffsets_snd (rs : List Record) : ∀ l : Log,
    (appendAllOffsets l rs).2 = appendAll l rs := by
  induction rs with
  | nil => intro l; rfl
  | cons r rest ih => intro l; simpa [appendAllOffsets, appendAll_cons] using ih (l.Append r).2.2

theorem appendAllOffsets_fst (rs : List Record) : ∀ l : Log,
    (appendAllOffsets l rs).1 = List.range' l.records.length rs.length := by
  induction rs with
  | nil => intro l; rfl
  | cons r rest ih =>
    intro l
    show (l.Append r).1 :: (appendAllOffsets (l.Append r).2.2 rest).1 = _
    rw [Log.append_fst, ih, Log.append_length, List.length_cons, List.range'_succ]

/-! ### Lemmas about operation sequences -/

theorem run_cons (l : Log) (op : Op) (ops : List Op) :
    run l (op :: ops) = run (step l op) ops := rfl

theorem step_getD_early (l : Log) (op : Op) (i : Nat) (h : i < l.records.length) :
    (step l op).records.getD i Record.zero = l.records.getD i Record.zero := by
  cases op with
  | append r =>
    show ((l.Append r).2.2).records.getD i Record.zero = _
    rw [Log.append_records, List.getD_append _ _ _ _ h]
  | read o => rfl

theorem step_length (l : Log) (op : Op) :
    (step l op).records.length
      = l.records.length + (match op with | Op.append _ => 1 | Op.read _ => 0) := by
  cases op with
  | append r => exact Log.append_length l r
  | read o => rfl

theorem countAppends_cons (op : Op) (ops : List Op) :
    countAppends (op :: ops)
      = countAppends ops + (match op with | Op.append _ => 1 | Op.read _ => 0) := by
  cases op with
  | append r => simp [countAppends, List.filter_cons]
  | read o => simp [countAppends, List.filter_cons]

theorem run_length (ops : List Op) : ∀ l : Log,
    (run l ops).records.length = l.records.length + countAppends ops := by
  induction ops with
  | nil => intro l; simp [run, countAppends]
  | cons op rest ih =>
    intro l
    rw [run_cons, ih, step_length, countAppends_cons]
    cases op with
    | append r => simp; omega
    | read o => simp

/-- The contiguous-offsets invariant: the record stored at position `i`
carries offset `i`. -/
def offsetsContiguous (l : Log) : Prop :=
  ∀ i, i < l.records.length → (l.records.getD i Record.zero).offset = i

theorem offsetsContiguous_step (l : Log) (op : Op) (h : offsetsContiguous l) :
    offsetsContiguous (step l op) := by
  cases op with
  | read o => exact h
  | append r =>
    intro i hi
    have hlen : (step l (Op.append r)).records.length = l.records.length + 1 :=
      Log.append_length l r
    rw [hlen] at hi
    show (((l.Append r).2.2).records.getD i Record.zero).offset = i
    rw [Log.append_records]
    rcases Nat.lt_or_ge i l.records.length with h1 | h1
    · rw [List.getD_append _ _ _ _ h1]
      exact h i h1
    · have hi' : i = l.records.length := by omega
      subst hi'
      rw [List.getD_append_right _ _ _ _ (Nat.le_refl _)]
      simp

theorem offsetsContiguous_run (ops : List Op) : ∀ l : Log,
    offsetsContiguous l → offsetsContiguous (run l ops) := by
  induction ops with
  | nil => intro l h; exact h
  | cons op rest ih =>
    intro l h
    rw [run_cons]
    exact ih _ (offsetsContiguous_step l op h)

theorem offsetsContiguous_newLog : offsetsContiguous NewLog := by
  intro i hi
  simp [NewLog] at hi

theorem range'_getD (n : Nat) : ∀ s i : Nat, i < n →
    (List.range' s n).getD i 0 = s + i := by
  induction n with
  | zero => intro s i hi; omega
  | succ m ih =>
    intro s i hi
    rw [List.range'_succ]
    match i with
    | 0 => rfl
    | Nat.succ j =>
      show (List.range' (s + 1) m).getD j 0 = s + (j + 1)
      rw [ih (s + 1) j (by omega)]
      omega

/-! ### The claims -/

/-- C1: for every sequence of records appended to a fresh Log, `Read i`
for each `i` below the number of appends succeeds and returns exactly
the record passed to the i-th Append call (payload equality), with its
offset field set to `i`. -/
theorem c1_read_returns_ith_append (rs : List Record) (i : Nat) (h : i < rs.length) :
    (appendAll NewLog rs).Read i = ({ rs.get ⟨i, h⟩ with offset := i }, none) := by
  have h0 : NewLog.records.length = 0 := rfl
  have hlen : (appendAll NewLog rs).records.length = rs.length := by
    rw [appendAll_length, h0, Nat.zero_add]
  rw [Log.read_of_lt _ _ (by omega)]
  have hget := appendAll_getD rs NewLog i h
  rw [h0, Nat.zero_add] at hget
  rw [hget]

/-- Witness for C1 at a concrete two-record history. -/
theorem c1_read_returns_ith_append_witness :
    (appendAll NewLog [⟨[104], 7⟩, ⟨[119], 9⟩]).Read 1
      = (⟨[119], 1⟩, none) :=
  c1_read_returns_ith_append [⟨[104], 7⟩, ⟨[119], 9⟩] 1 (by decide)

/-- C2: `Read o` fails with the offset-not-found condition whenever
`o` is at least the current length; offset-not-found is the only error
`Read` ever produces; and `Read 0` on the empty log fails with
offset-not-found. -/
theorem c2_read_out_of_range :
    (∀ (l : Log) (o : Nat), l.records.length ≤ o →
        l.Read o = (Record.zero, some ErrOffsetNotFound))
    ∧ (∀ (l : Log) (o : Nat) (e : GoError), (l.Read o).2 = some e →
        e = ErrOffsetNotFound)
    ∧ NewLog.Read 0 = (Record.zero, some ErrOffsetNotFound) := by
  refine ⟨fun l o h => Log.read_of_ge l o h, ?_, rfl⟩
  intro l o e he
  by_cases h : o < l.records.length
  · rw [Log.read_of_lt _ _ h] at he
    exact absurd he (by simp)
  · rw [Log.read_of_ge _ _ (by omega)] at he
    simp only [Option.some.injEq] at he
    exact he.symm

/-- Witness for C2: out-of-range read and empty-log read, concretely. -/
theorem c2_read_out_of_range_witness :
    NewLog.Read 5 = (Record.zero, some ErrOffsetNotFound)
    ∧ GoError.offsetNotFound = ErrOffsetNotFound :=
  ⟨c2_read_out_of_range.1 NewLog 5 (by decide),
   c2_read_out_of_range.2.1 NewLog 5 GoError.offsetNotFound rfl⟩

/-- C3: each Append returns the pre-append length as the new offset and
grows the log by exactly one record, after which reading the newly
assigned offset succeeds; over a whole history from the empty log, the
k-th Append call (k counted from 1) returns offset k-1. -/
theorem c3_append_assigns_sequential_offsets :
    (∀ (l : Log) (r : Record),
        (l.Append r).1 = l.records.length
        ∧ ((l.Append r).2.2).records.length = l.records.length + 1
        ∧ (((l.Append r).2.2).Read (l.Append r).1).2 = none)
    ∧ (∀ (rs : List Record) (k : Nat), 1 ≤ k → k ≤ rs.length →
        (appendAllOffsets NewLog rs).1.getD (k - 1) 0 = k - 1) := by
  constructor
  · intro l r
    refine ⟨rfl, Log.append_length l r, ?_⟩
    rw [Log.append_fst, Log.read_of_lt _ _ (by rw [Log.append_length]; omega)]
  · intro rs k h1 h2
    rw [appendAllOffsets_fst]
    show (List.range' NewLog.records.length rs.length).getD (k - 1) 0 = k - 1
    rw [range'_getD rs.length _ (k - 1) (by omega)]
    simp [NewLog]

/-- Witness for C3 at a concrete one-record history. -/
theorem c3_append_assigns_sequential_offsets_witness :
    ((NewLog.Append ⟨[1], 3⟩).1 = NewLog.records.length
      ∧ ((NewLog.Append ⟨[1], 3⟩).2.2).records.length = NewLog.records.length + 1
      ∧ (((NewLog.Append ⟨[1], 3⟩).2.2).Read (NewLog.Append ⟨[1], 3⟩).1).2 = none)
    ∧ (appendAllOffsets NewLog [⟨[1], 3⟩]).1.getD 0 0 = 0 :=
  ⟨c3_append_assigns_sequential_offsets.1 NewLog ⟨[1], 3⟩,
   c3_append_assigns_sequential_offsets.2 [⟨[1], 3⟩] 1 (by decide) (by decide)⟩

/-- C4: in every state reachable from the empty Log by any sequence of
Append and Read operations, the stored offsets are exactly `0, ..., N-1`
in order, where N is the number of records ever appended (so offsets are
contiguous with no gaps, reuse, or reordering); moreover no operation
ever alters a record already stored, so an assigned offset never
changes. -/
theorem c4_reachable_offsets_contiguous :
    (∀ ops : List Op, (run NewLog ops).records.length = countAppends ops)
    ∧ (∀ (ops : List Op) (i : Nat), i < (run NewLog ops).records.length →
        ((run NewLog ops).records.getD i Record.zero).offset = i)
    ∧ (∀ (l : Log) (op : Op) (i : Nat), i < l.records.length →
        (step l op).records.getD i Record.zero = l.records.getD i Record.zero) := by
  refine ⟨?_, ?_, step_getD_early⟩
  · intro ops
    rw [run_length]
    have h0 : NewLog.records.length = 0 := rfl
    rw [h0, Nat.zero_add]
  · intro ops
    exact offsetsContiguous_run ops NewLog offsetsContiguous_newLog

/-- Witness for C4 after one append and one read. -/
theorem c4_reachable_offsets_contiguous_witness :
    (run NewLog [Op.append ⟨[7], 42⟩, Op.read 0]).records.length
        = countAppends [Op.append ⟨[7], 42⟩, Op.read 0]
    ∧ ((run NewLog [Op.append ⟨[7], 42⟩, Op.read 0]).records.getD 0 Record.zero).offset = 0
    ∧ (step ⟨[⟨[7], 0⟩]⟩ (Op.append ⟨[8], 9⟩)).records.getD 0 Record.zero
        = (⟨[⟨[7], 0⟩]⟩ : Log).records.getD 0 Record.zero :=
  ⟨c4_reachable_offsets_contiguous.1 [Op.append ⟨[7], 42⟩, Op.read 0],
   c4_reachable_offsets_contiguous.2.1 [Op.append ⟨[7], 42⟩, Op.read 0] 0 (by decide),
   c4_reachable_offsets_contiguous.2.2 ⟨[⟨[7], 0⟩]⟩ (Op.append ⟨[8], 9⟩) 0 (by decide)⟩

/-- C5: Append never returns an error, so in `handleProduce` the
500 branch guarding the append result is unreachable: once the body
decodes, the response status is 200 when response encoding succeeds and
500 only through the encode step. -/
theorem c5_append_never_fails :
    (∀ (l : Log) (r : Record), (l.Append r).2.1 = none)
    ∧ (∀ (l : Log) (req : ProduceRequest) (encodeOk : Bool),
        (handleProduce l (some req) encodeOk).1 = if encodeOk then 200 else 500) := by
  refine ⟨fun l r => rfl, ?_⟩
  intro l req encodeOk
  cases encodeOk <;> rfl

/-- C6: `handleConsume` answers 400 exactly when the body fails to
decode, 404 when the Log reports offset-not-found, and 500 for any
other read error; the three status codes are pairwise distinct, so the
conditions are never conflated. -/
theorem c6_consume_status_mapping :
    (∀ (l : Log) (b : Json) (eok : Bool), decodeConsumeRequest b = none →
        (handleConsume l b eok).1 = 400)
    ∧ (∀ (l : Log) (b : Json) (req : ConsumeRequest) (eok : Bool),
        decodeConsumeRequest b = some req →
        (l.Read req.offset).2 = some ErrOffsetNotFound →
        (handleConsume l b eok).1 = 404)
    ∧ (∀ (l : Log) (rec : Record) (e : GoError) (eok : Bool),
        e ≠ ErrOffsetNotFound →
        (consumeAfterRead l rec (some e) eok).1 = 500)
    ∧ ((400 : Nat) ≠ 404 ∧ (400 : Nat) ≠ 500 ∧ (404 : Nat) ≠ 500) := by
  refine ⟨?_, ?_, ?_, by omega, by omega, by omega⟩
  · intro l b eok hdec
    simp [handleConsume, hdec]
  · intro l b req eok hdec hread
    simp [handleConsume, hdec, consumeAfterRead, hread]
  · intro l rec e eok hne
    simp [consumeAfterRead, Option.some.injEq, hne]

/-- Witness for C6: a non-object body gives 400, an empty-log read of
offset 0 gives 404, and a non-sentinel read error gives 500. -/
theorem c6_consume_status_mapping_witness :
    (handleConsume NewLog (Json.num 3) true).1 = 400
    ∧ (handleConsume NewLog (Json.obj []) true).1 = 404
    ∧ (consumeAfterRead NewLog Record.zero (some (GoError.other "disk")) true).1 = 500 :=
  ⟨c6_consume_status_mapping.1 NewLog (Json.num 3) true rfl,
   c6_consume_status_mapping.2.1 NewLog (Json.obj []) ⟨0⟩ true rfl rfl,
   c6_consume_status_mapping.2.2.1 NewLog Record.zero (GoError.other "disk") true
     (by intro hcontra; simp [ErrOffsetNotFound] at hcontra)⟩

/-- C7: for a valid offset, `Read` succeeds, performs no mutation of the
Log state, and a repeated `Read` of the same offset returns the same
record. -/
theorem c7_read_idempotent (l : Log) (o : Nat) (h : o < l.records.length) :
    (l.Read o).2 = none
    ∧ step l (Op.read o) = l
    ∧ (step l (Op.read o)).Read o = l.Read o := by
  refine ⟨?_, rfl, rfl⟩
  rw [Log.read_of_lt _ _ h]

/-- Witness for C7 on a one-record log. -/
theorem c7_read_idempotent_witness :
    ((⟨[⟨[5], 0⟩]⟩ : Log).Read 0).2 = none
    ∧ step ⟨[⟨[5], 0⟩]⟩ (Op.read 0) = ⟨[⟨[5], 0⟩]⟩
    ∧ (step ⟨[⟨[5], 0⟩]⟩ (Op.read 0)).Read 0 = (⟨[⟨[5], 0⟩]⟩ : Log).Read 0 :=
  c7_read_idempotent ⟨[⟨[5], 0⟩]⟩ 0 (by decide)

/-- C8: `Append` overwrites the caller-supplied offset field, so two
input records with the same payload but different offset fields yield
the same returned offset, the same error, and the same resulting Log
state from any starting state. -/
theorem c8_append_ignores_caller_offset (l : Log) (v : List Nat) (o1 o2 : Nat)
    (_h : o1 ≠ o2) : l.Append ⟨v, o1⟩ = l.Append ⟨v, o2⟩ := rfl

/-- Witness for C8 with offsets 0 and 99. -/
theorem c8_append_ignores_caller_offset_witness :
    NewLog.Append ⟨[1, 2], 0⟩ = NewLog.Append ⟨[1, 2], 99⟩ :=
  c8_append_ignores_caller_offset NewLog [1, 2] 0 99 (by omega)

/-- C9: a POST body that fails to decode makes `handleProduce` answer
400 with no response body and the Log unchanged (Append is never
reached); a GET body that fails to decode makes `handleConsume` answer
400 with no response body and the Log unchanged (Read is never
reached). -/
theorem c9_decode_failure_is_atomic :
    (∀ (l : Log) (eok : Bool), handleProduce l none eok = (400, none, l))
    ∧ (∀ (l : Log) (b : Json) (eok : Bool), decodeConsumeRequest b = none →
        handleConsume l b eok = (400, none, l)) := by
  refine ⟨fun l eok => rfl, ?_⟩
  intro l b eok hdec
  simp [handleConsume, hdec]

/-- Witness for C9: a string GET body fails to decode and leaves the
log alone. -/
theorem c9_decode_failure_is_atomic_witness :
    handleProduce NewLog none true = (400, none, NewLog)
    ∧ handleConsume NewLog (Json.str "oops") true = (400, none, NewLog) :=
  ⟨c9_decode_failure_is_atomic.1 NewLog true,
   c9_decode_failure_is_atomic.2 NewLog (Json.str "oops") true rfl⟩

/-- C10: a GET body that is an object without an "offset" field decodes
successfully to offset 0 (Go leaves the zero value in place), so
`handleConsume` reads offset 0 instead of answering 400; on the empty
log this surfaces as 404, not as a client decode error. -/
theorem c10_empty_object_reads_offset_zero :
    decodeConsumeRequest (Json.obj []) = some ⟨0⟩
    ∧ handleConsume NewLog (Json.obj []) true = (404, none, NewLog)
    ∧ (404 : Nat) ≠ 400 := by
  refine ⟨rfl, rfl, by omega⟩
